import Mathlib

/-!
Verification development for the GenAI-for-Legal-Documents retrieval-augmented
question-answering pipeline. The Python sources are shallowly embedded as
executable Lean definitions: pure helpers become Lean functions, the external
collaborators (the language model, the embedding service, the vector index
transport, the hash function, the filesystem and HTTP stack) become explicit
parameters or state that is threaded through, and fallible calls return
`Except` or carry an injected failure parameter.
-/

/- ## Python string primitives, embedded executably over `List Char` -/

/-- Whitespace set stripped by the Python `str.strip` method (ASCII part). -/
def pyIsSpace (c : Char) : Bool :=
  decide (c = ' ') || decide (c = '\t') || decide (c = '\n') || decide (c = '\r')
    || decide (c = '\x0b') || decide (c = '\x0c')

/-- Strip leading and trailing whitespace from a character list. -/
def trimChars (cs : List Char) : List Char :=
  ((cs.dropWhile pyIsSpace).reverse.dropWhile pyIsSpace).reverse

/-- Embedding of the Python `str.strip()` call. -/
def pyStrip (s : String) : String := ⟨trimChars s.toList⟩

/-- Split a character list at newline characters (embedding of `str.splitlines`
for text whose line breaks are `\n` or `\r\n`; the stray `\r` is consumed by
the `strip` every consumer applies to each line). -/
def splitLinesAux (cs : List Char) (cur : List Char) : List (List Char) :=
  match cs with
  | [] => [cur.reverse]
  | c :: rest =>
    if c = '\n' then cur.reverse :: splitLinesAux rest []
    else splitLinesAux rest (c :: cur)

/-- Embedding of the Python `str.splitlines()` call. -/
def pySplitLines (s : String) : List String :=
  (splitLinesAux s.toList []).map (fun cs => (⟨cs⟩ : String))

/-- Boolean prefix test on character lists. -/
def hasPrefixChars : List Char → List Char → Bool
  | _, [] => true
  | [], _ :: _ => false
  | h :: hs, p :: ps => decide (h = p) && hasPrefixChars hs ps

/-- Embedding of the Python `str.startswith` call. -/
def pyStartsWith (s pre : String) : Bool := hasPrefixChars s.toList pre.toList

/-- Boolean substring-containment test (embedding of the Python `in` operator
on strings). -/
def containsSub : List Char → List Char → Bool
  | [], pat => hasPrefixChars [] pat
  | h :: rest, pat => hasPrefixChars (h :: rest) pat || containsSub rest pat

/-- ASCII lower-casing of one character (embedding of `str.lower` as applied
to HTTP content-type headers). -/
def lowerChar (c : Char) : Char :=
  if decide ('A' ≤ c) && decide (c ≤ 'Z') then Char.ofNat (c.toNat + 32) else c

/-- Embedding of the Python `str.lower()` call. -/
def pyLower (s : String) : String := ⟨s.toList.map lowerChar⟩

/-- Decimal digit character for a value below ten. -/
def decDigit (d : Nat) : Char := Char.ofNat (48 + d)

/-- Fuel-driven decimal rendering of a natural number, most significant digit
first. The fuel is only a structural-recursion device; `natToDec` supplies
enough of it for every input. -/
def natToDecAux : Nat → Nat → List Char
  | 0, _ => []
  | fuel + 1, n =>
    if n < 10 then [decDigit n]
    else natToDecAux fuel (n / 10) ++ [decDigit (n % 10)]

/-- Embedding of the Python `str(n)` conversion for a nonnegative integer. -/
def natToDec (n : Nat) : List Char := natToDecAux (n + 1) n

/-- Decimal string of a natural number. -/
def natToDecStr (n : Nat) : String := ⟨natToDec n⟩

/-- Numeric value of a decimal digit string, used to prove that the decimal
rendering is injective. -/
def decVal (cs : List Char) : Nat :=
  cs.foldl (fun a c => 10 * a + (c.toNat - 48)) 0

/- ## Answer synthesizer: `ImprovedLLMProcessor` (src/app/services/llm_processor.py) -/

/-- Value inside a decoded JSON `answers` array: either a JSON string or any
other JSON value (number, null, object, ...), which the Python code passes
through untouched. -/
inductive JVal where
  | str (s : String)
  | other
deriving DecidableEq

/-- Whether a decoded JSON array element is a string. -/
def JVal.isStr : JVal → Bool
  | .str _ => true
  | .other => false

/-- Shape of the `answers` field of a decoded JSON object: a JSON array or a
value of any other type (which makes the Python code raise). -/
inductive JField where
  | list (xs : List JVal)
  | nonList
deriving DecidableEq

/-- Outcome of a successful `json.loads` call: a JSON object whose `answers`
key is present or absent, or a non-object value. -/
inductive JTop where
  | dict (answers : Option JField)
  | nonDict
deriving DecidableEq

/-- Placeholder appended by `parse_response` when the decoded `answers` array
is shorter than the question list (llm_processor.py line 243). -/
def json_pad_placeholder : String :=
  "Unable to find relevant information in the provided context."

/-- Placeholder appended by `fallback_parse` when fewer answers were recovered
than questions asked (llm_processor.py line 273). -/
def fallback_pad_placeholder : String :=
  "Unable to process this question due to response parsing issues."

/-- Embedding of the padding loop `while len(answers) < len(questions):
answers.append(ph)` (a closed form of the loop; `padAnswers_loop` below shows
it satisfies the loop equation). -/
def padAnswers (xs : List α) (n : Nat) (ph : α) : List α :=
  xs ++ List.replicate (n - xs.length) ph

/-- Line starts the Python code skips in `fallback_parse` (code fences,
braces, the field-name literal and section headers; llm_processor.py
line 257). -/
def noiseStarts : List String :=
  ["```", "\x7b", "\x7d", "\"answers\"", "CONTEXT", "QUESTIONS"]

/-- Whether a stripped line is structural noise for the fallback parsing. -/
def isNoiseLine (line : String) : Bool :=
  noiseStarts.any (fun p => pyStartsWith line p)

/-- Test for the regex `^\d+\.` used to detect a numbered answer line. -/
def startsNumberedDot (cs : List Char) : Bool :=
  let ds := cs.takeWhile Char.isDigit
  !ds.isEmpty && hasPrefixChars (cs.drop ds.length) ['.']

/-- Embedding of `re.sub(r"^\d+\.\s*", "", line)` on a line known to match
the numbered-line pattern. -/
def dropNumberDot (cs : List Char) : List Char :=
  ((cs.dropWhile Char.isDigit).drop 1).dropWhile pyIsSpace

/-- Line scan of `fallback_parse` (llm_processor.py lines 252 to 270): strip
each line, skip empty and noise lines, start a new answer at each numbered
line, and append continuation lines to the current answer. -/
def fallbackScan : List String → String → List String → List String
  | [], current, acc =>
    if current ≠ "" then acc ++ [pyStrip current] else acc
  | l :: rest, current, acc =>
    let line := pyStrip l
    if line = "" || isNoiseLine line then fallbackScan rest current acc
    else if startsNumberedDot line.toList then
      let acc2 := if current ≠ "" then acc ++ [pyStrip current] else acc
      fallbackScan rest ⟨dropNumberDot line.toList⟩ acc2
    else if current ≠ "" then fallbackScan rest (current ++ " " ++ line) acc
    else fallbackScan rest line acc

/-- Embedding of `ImprovedLLMProcessor.fallback_parse` (llm_processor.py
lines 250 to 275). -/
def fallback_parse (response_text : String) (questions : List String) : List String :=
  let answers := fallbackScan (pySplitLines response_text) "" []
  (padAnswers answers questions.length fallback_pad_placeholder).take questions.length

/-- Suffix of the character list starting at the first opening brace, the
embedding of `response_text[response_text.find(chr(123)):]`. -/
def findBraceSuffix : List Char → Option (List Char)
  | [] => none
  | c :: rest => if c = '\x7b' then some (c :: rest) else findBraceSuffix rest

/-- JSON-candidate extraction of `parse_response` (llm_processor.py lines 223
to 228): a fenced ```json block when the regex matches (the regex engine is a
collaborator, passed as `fenced`), otherwise the substring from the first
opening brace to the end of the text. -/
def find_json_str (fenced : String → Option String) (response_text : String) :
    Option String :=
  match fenced response_text with
  | some j => some j
  | none => (findBraceSuffix response_text.toList).map (fun cs => (⟨cs⟩ : String))

/-- Embedding of `ImprovedLLMProcessor.parse_response` (llm_processor.py
lines 219 to 248). `loads` is the `json.loads` collaborator: `none` models a
decode exception. Every failure of the strict path falls back to
`fallback_parse`, whose string answers are injected into `JVal`. -/
def parse_response (fenced : String → Option String) (loads : String → Option JTop)
    (response_text : String) (questions : List String) : List JVal :=
  let viaFallback := (fallback_parse response_text questions).map JVal.str
  match find_json_str fenced response_text with
  | none => viaFallback
  | some json_str =>
    if json_str = "" then viaFallback
    else
      match loads json_str with
      | none => viaFallback
      | some JTop.nonDict => viaFallback
      | some (JTop.dict none) => viaFallback
      | some (JTop.dict (some JField.nonList)) => viaFallback
      | some (JTop.dict (some (JField.list answers))) =>
        (padAnswers answers questions.length (JVal.str json_pad_placeholder)).take
          questions.length

/-- Embedding of `ImprovedLLMProcessor.generate_answers` (llm_processor.py
lines 171 to 213). `complete` is the outcome of the Gemini call on the
assembled prompt: `Except.error` models an exception anywhere before parsing,
answered by one uniform error string per question; on success the stripped
response text is parsed. The context chunks only shape the prompt, never the
parsing, so they are carried but unused here. -/
def generate_answers (complete : Except String String)
    (fenced : String → Option String) (loads : String → Option JTop)
    (questions : List String) (context_chunks : List String) : List JVal :=
  match complete with
  | .ok response => parse_response fenced loads (pyStrip response) questions
  | .error e => questions.map (fun _ => JVal.str ("Error: " ++ e))

/- ## Vector index: `EnhancedHybridVectorStore` (src/app/services/vector_store.py) -/

/-- Metadata stored with every upserted vector (vector_store.py lines 110 to
115). -/
structure VectorMeta where
  text : String
  chunk_id : Nat
  text_length : Nat
  document_id : String
deriving DecidableEq

/-- One vector of an upsert request: identifier, embedding value and
metadata. The embedding value type is abstract (the embedding service is a
collaborator). -/
structure PineVector (Emb : Type) where
  id : String
  values : Emb
  metadata : VectorMeta
deriving DecidableEq

/-- One record held by the vector index service: the namespace it was
upserted into plus the vector. -/
structure IndexEntry (Emb : Type) where
  ns : String
  vec : PineVector Emb
deriving DecidableEq

/-- State of the vector index service. -/
abbrev IndexState (Emb : Type) := List (IndexEntry Emb)

/-- Namespace used by `EnhancedHybridVectorStore` (vector_store.py line 10). -/
def vectorNamespace : String := "insurance_docs"

/-- Collaborator contract of the index `upsert` call: within the target
namespace, records whose identifier occurs in the request are replaced, and
the request vectors are stored. -/
def upsertVectors {Emb : Type} (s : IndexState Emb) (ns : String)
    (vs : List (PineVector Emb)) : IndexState Emb :=
  s.filter (fun e => !(decide (e.ns = ns) && vs.any (fun v => decide (v.id = e.vec.id))))
    ++ vs.map (fun v => ⟨ns, v⟩)

/-- Vector identifier built by `add_to_pinecone_fallback` (vector_store.py
line 108): the literal chunk_ prefix, the document identifier and the global
ordinal of the segment. -/
def chunkVectorId (document_id : String) (ordinal : Nat) : String :=
  "chunk_" ++ document_id ++ "_" ++ natToDecStr ordinal

/-- One upsert vector of `add_to_pinecone_fallback` (vector_store.py lines
106 to 116), for the segment at global ordinal `ordinal`. -/
def mkChunkVector {Emb : Type} (document_id : String) (ordinal : Nat)
    (chunk : String) (embedding : Emb) : PineVector Emb :=
  { id := chunkVectorId document_id ordinal
    values := embedding
    metadata :=
      { text := chunk
        chunk_id := ordinal
        text_length := chunk.length
        document_id := document_id } }

/-- Vectors built for one batch whose first segment has global ordinal
`batch_idx` (the enumeration inside the batch loop of
`add_to_pinecone_fallback`). -/
def mkBatchVectors {Emb : Type} (document_id : String) :
    Nat → List (String × Emb) → List (PineVector Emb)
  | _, [] => []
  | batch_idx, p :: rest =>
    mkChunkVector document_id batch_idx p.1 p.2 ::
      mkBatchVectors document_id (batch_idx + 1) rest

/-- Batch size of the upsert loop (vector_store.py line 98). -/
def pineconeBatchSize : Nat := 20

/-- Fuel-driven embedding of the batch loop of `add_to_pinecone_fallback`
(vector_store.py lines 100 to 118): slice off one batch of twenty
segment-embedding pairs, build its vectors, and upsert them; `upsertFail`
injects a transport exception for the upsert call at a given batch start
index, which aborts the loop with the state written so far. The fuel is a
structural-recursion device only; callers pass enough of it. -/
def addBatchesAux {Emb : Type} (upsertFail : Nat → Option String)
    (document_id : String) :
    Nat → List (String × Emb) → Nat → IndexState Emb → IndexState Emb × Option String
  | 0, _, _, s => (s, none)
  | _ + 1, [], _, s => (s, none)
  | fuel + 1, p :: rest, batch_idx, s =>
    match upsertFail batch_idx with
    | some e => (s, some e)
    | none =>
      let pairs := p :: rest
      let batch := pairs.take pineconeBatchSize
      addBatchesAux upsertFail document_id fuel (pairs.drop pineconeBatchSize)
        (batch_idx + pineconeBatchSize)
        (upsertVectors s vectorNamespace (mkBatchVectors document_id batch_idx batch))

/-- Embedding of `EnhancedHybridVectorStore.add_to_pinecone_fallback`
(vector_store.py lines 94 to 122). `encode` is the embedding-service
collaborator (`Except.error` models an exception raised by the model call).
The second component of the result is the exception propagated to the
caller; the try/except of the source catches every error and only logs it,
so that component is built from the caught outcome. -/
def add_to_pinecone_fallback {Emb : Type} (encode : List String → Except String (List Emb))
    (upsertFail : Nat → Option String) (chunks : List String) (document_id : String)
    (s : IndexState Emb) : IndexState Emb × Option String :=
  match encode chunks with
  | .error _ => (s, none)
  | .ok embeddings =>
    let pairs := chunks.zip embeddings
    let out := addBatchesAux upsertFail document_id (pairs.length + 1) pairs 0 s
    (out.1, none)

/-- Insertion of an element into a score-sorted list, larger scores first. -/
def insertByScore {α : Type} (sc : α → Int) (x : α) : List α → List α
  | [] => [x]
  | y :: ys => if sc y ≤ sc x then x :: y :: ys else y :: insertByScore sc x ys

/-- Sort by descending score (the similarity ranking performed by the vector
index service). -/
def sortByScore {α : Type} (sc : α → Int) : List α → List α
  | [] => []
  | x :: xs => insertByScore sc x (sortByScore sc xs)

/-- Collaborator contract of the index `query` call (spec section 6): keep
the records of the target namespace that satisfy the metadata filter
document_id equals the requested value, rank them by descending similarity
to the query embedding, and return at most `top_k` of them. -/
def pineconeQuery {Emb : Type} (sim : Emb → Emb → Int) (s : IndexState Emb)
    (qEmb : Emb) (top_k : Nat) (ns : String) (document_id : String) :
    List (IndexEntry Emb) :=
  (sortByScore (fun e => sim qEmb e.vec.values)
      (s.filter (fun e =>
        decide (e.ns = ns) && decide (e.vec.metadata.document_id = document_id)))).take
    top_k

/-- Embedding of `EnhancedHybridVectorStore.search` (vector_store.py lines 74
to 92). `encodeQuery` is the embedding collaborator for the query text and
`queryFail` injects a transport exception for the index query call; both are
caught by the try/except of the source, which then returns the empty list.
On success the text metadata of each match is returned. -/
def search {Emb : Type} (encodeQuery : String → Except String Emb)
    (sim : Emb → Emb → Int) (queryFail : Option String) (s : IndexState Emb)
    (query : String) (document_id : String) (limit : Nat) : List String :=
  match encodeQuery query with
  | .error _ => []
  | .ok qEmb =>
    match queryFail with
    | some _ => []
    | none =>
      (pineconeQuery sim s qEmb limit vectorNamespace document_id).map
        (fun e => e.vec.metadata.text)

/- ## Content extractor: `ContentProcessor` (src/app/services/content_processor.py) -/

/-- Python exception surfaced by the route layer: an HTTPException with a
status code and detail, a ValueError, or an AttributeError. -/
inductive PyErr where
  | httpException (status : Nat) (detail : String)
  | valueError (msg : String)
  | attributeError (msg : String)
deriving DecidableEq

/-- Successful HTTP download: the content-type header and the body (the body
stands for both `response.content` and `response.text` of the source, which
reads the same payload). -/
structure HttpResp where
  content_type : String
  body : String
deriving DecidableEq

deriving instance DecidableEq for Except

/-- Filesystem state: the set of on-disk paths, as a list. -/
abbrev FsState := List String

/-- PDF page concatenation of `download_and_extract` (content_processor.py
lines 40 to 45): every page with nonempty stripped content contributes a
page-delimited block. -/
def buildPdfText (pages : List String) : String :=
  (pages.enum.filterMap (fun ip =>
    let pc := pyStrip ip.2
    if pc = "" then none
    else some ("\n=== Page " ++ natToDecStr (ip.1 + 1) ++ " ===\n" ++ pc ++ "\n"))).foldl
    (fun a b => a ++ b) ""

/-- NUL-character removal, the embedding of `text.replace(chr(0), "")`
(content_processor.py line 65). -/
def stripNul (text : String) : String :=
  ⟨text.toList.filter (fun c => !(decide (c = '\x00')))⟩

/-- Tail of `download_and_extract` (content_processor.py lines 61 to 67): the
empty-content check, whose ValueError is converted by the outer handler into
an HTTPException 400, then NUL stripping and the final strip. -/
def finishExtract (text : String) (fs : FsState) : Except PyErr String × FsState :=
  if pyStrip text = "" then
    (.error (.httpException 400
      "Failed to process content from URL: No text could be extracted from the content."), fs)
  else (.ok (pyStrip (stripNul text)), fs)

/-- Embedding of `ContentProcessor.download_and_extract` (content_processor.py
lines 13 to 74). Collaborator parameters: `resp` is the outcome of the
`requests.get` call including `raise_for_status` (`Except.error` carries the
exception text), `tmpPath` is the path the tempfile module picks for the
temporary PDF file, `writeFail` injects an exception of the write of the
downloaded bytes to that file, and `pdfPages` is the outcome of the
PyPDFLoader collaborator (page contents, or a parse exception). The
filesystem state records which paths exist on disk; the temporary file is
created before the write and unlinked by the try/finally around the parse.
A write failure escapes that region, so only the outer handler runs there. -/
def download_and_extract (resp : Except String HttpResp) (tmpPath : String)
    (writeFail : Option String) (pdfPages : Except String (List String))
    (fs : FsState) : Except PyErr String × FsState :=
  match resp with
  | .error msg =>
    (.error (.httpException 400 ("Failed to process content from URL: " ++ msg)), fs)
  | .ok r =>
    let ct := pyLower r.content_type
    if containsSub ct.toList "application/pdf".toList then
      let fs1 := fs ++ [tmpPath]
      match writeFail with
      | some msg =>
        (.error (.httpException 400 ("Failed to process content from URL: " ++ msg)), fs1)
      | none =>
        match pdfPages with
        | .error _ => (.error (.httpException 422 "Failed to parse PDF content."),
            fs1.erase tmpPath)
        | .ok pages => finishExtract (buildPdfText pages) (fs1.erase tmpPath)
    else if containsSub ct.toList "text/plain".toList then
      finishExtract r.body fs
    else
      (.error (.httpException 415 ("Unsupported content type: " ++ ct)), fs)

/- ## Session store (session_manager, imported by src/app/routes/endpoints.py
but absent from the sources) -/

/-- Value of one session entry: the active document and its full text. -/
structure SessionEntry where
  document_id : String
  full_text : String
deriving DecidableEq

/-- Session store state: session token to active document. -/
abbrev SessionStore := List (String × SessionEntry)

/-- Modelled from the spec: `session_manager.get_or_create_session_id` is
missing from the sources; per spec section 4.6 `resolve_or_create` returns
the supplied token and mints a fresh one when none is supplied. The fresh
token is a collaborator input. -/
def get_or_create_session_id (freshToken : String) : Option String → String
  | some t => t
  | none => freshToken

/-- Modelled from the spec: `session_manager.update_session_data` is missing
from the sources; per spec section 4.6 `put` overwrites any prior entry for
the token, one document per session. -/
def update_session_data (store : SessionStore) (token : String)
    (document_id full_text : String) : SessionStore :=
  (token, ⟨document_id, full_text⟩) ::
    store.filter (fun p => !(decide (p.1 = token)))

/-- Modelled from the spec: `session_manager.get_session_data` is missing
from the sources; per spec section 4.6 `get` returns the entry of the token
or absence. -/
def get_session_data (store : SessionStore) (token : String) : Option SessionEntry :=
  match store with
  | [] => none
  | p :: rest => if p.1 = token then some p.2 else get_session_data rest token

/- ## Route handlers (src/app/routes/endpoints.py) -/

/-- Embedding of the URL branch of `upload_document` (endpoints.py lines 66
to 89). The handler unpacks the single string returned by
`download_and_extract` into the pair content and content-type, which in
Python only succeeds when the string has exactly two characters, and then
calls `content_processor.extract_text_from_content`, a method that does not
exist on `ContentProcessor` (src/app/services/content_processor.py), so that
call raises AttributeError. The session store is never written. -/
def upload_document_via_url (resp : Except String HttpResp) (tmpPath : String)
    (writeFail : Option String) (pdfPages : Except String (List String))
    (fs : FsState) : Except PyErr (SessionStore × String) × FsState :=
  let out := download_and_extract resp tmpPath writeFail pdfPages fs
  match out.1 with
  | .error e => (.error e, out.2)
  | .ok text =>
    if text.length < 2 then
      (.error (.valueError "not enough values to unpack (expected 2)"), out.2)
    else if 2 < text.length then
      (.error (.valueError "too many values to unpack (expected 2)"), out.2)
    else
      (.error (.attributeError
        "ContentProcessor object has no attribute extract_text_from_content"), out.2)

/-- Embedding of the file branch of `upload_document` (endpoints.py lines 68
to 89): the uploaded bytes are read, then
`content_processor.extract_text_from_content` is called, which raises
AttributeError because `ContentProcessor` has no such method. -/
def upload_document_via_file (content : String) (content_type : String) :
    Except PyErr (SessionStore × String) :=
  .error (.attributeError
    "ContentProcessor object has no attribute extract_text_from_content")

/-- Per-question top-five union of `process_documents` (endpoints.py lines
104 to 107): the set update deduplicates by text equality; the set is
modelled as a duplicate-free list in first-insertion order. -/
def dedupUpdate (acc : List String) (xs : List String) : List String :=
  xs.foldl (fun a x => if x ∈ a then a else a ++ [x]) acc

/-- Union over all questions of the first five retrieved segments each
(endpoints.py lines 104 to 107). -/
def gatherRelevantChunks (retrieve : String → List String)
    (questions : List String) : List String :=
  questions.foldl (fun acc q => dedupUpdate acc ((retrieve q).take 5)) []

/-- Embedding of the body of `process_documents` after session resolution
(endpoints.py lines 103 to 112). Retrieval runs `search` per question with
the default limit fifteen of the source; `queryFail` injects per-question
transport failures. The second component logs every synthesizer invocation
with its arguments; the source makes exactly one call. -/
def process_documents {Emb : Type} (encodeQuery : String → Except String Emb)
    (sim : Emb → Emb → Int) (queryFail : String → Option String)
    (s : IndexState Emb) (synthesize : List String → List String → List String)
    (document_id : String) (questions : List String) :
    List String × List (List String × List String) :=
  let retrieve := fun q => search encodeQuery sim (queryFail q) s q document_id 15
  let final_chunks := (gatherRelevantChunks retrieve questions).take 20
  (synthesize questions final_chunks, [(questions, final_chunks)])

/- ## Document cache (src/cache_manager.py) -/

/-- Value of one content-cache entry (cache_manager.py lines 27 to 31). -/
structure CacheEntry where
  document_id : String
  chunks : List String
  cached_at : String
deriving DecidableEq

/-- Content-cache state: key hash to entry, modelling the module-level
`document_cache` dict. -/
abbrev DocumentCache := List (String × CacheEntry)

/-- Dict lookup. -/
def dictFind (m : DocumentCache) (k : String) : Option CacheEntry :=
  match m with
  | [] => none
  | p :: rest => if p.1 = k then some p.2 else dictFind rest k

/-- Dict assignment: the new binding shadows and removes any prior binding of
the key. -/
def dictInsert (m : DocumentCache) (k : String) (v : CacheEntry) : DocumentCache :=
  (k, v) :: m.filter (fun p => !(decide (p.1 = k)))

/-- Embedding of `get_url_hash` (cache_manager.py lines 13 to 15): the SHA256
hex digest is a collaborator, passed as `sha256hex`; the key is its value on
the raw URL string. -/
def get_url_hash (sha256hex : String → String) (url : String) : String :=
  sha256hex url

/-- Embedding of `cache_document` (cache_manager.py lines 24 to 32); `now` is
the formatted current time. -/
def cache_document (sha256hex : String → String) (m : DocumentCache)
    (url document_id : String) (chunks : List String) (now : String) : DocumentCache :=
  dictInsert m (get_url_hash sha256hex url) ⟨document_id, chunks, now⟩

/-- Embedding of `get_cached_document` (cache_manager.py lines 18 to 21). -/
def get_cached_document (sha256hex : String → String) (m : DocumentCache)
    (url : String) : Option CacheEntry :=
  dictFind m (get_url_hash sha256hex url)

/-- Replay of a sequence of cache writes, each given as url, document
identifier, chunks and timestamp. -/
def applyPuts (sha256hex : String → String)
    (puts : List (String × String × List String × String)) (m : DocumentCache) :
    DocumentCache :=
  puts.foldl (fun acc p => cache_document sha256hex acc p.1 p.2.1 p.2.2.1 p.2.2.2) m

/-- Pad-or-truncate shape stated by the spec (section 4.4 step 3): keep the
first `n` answers and fill up to `n` with the placeholder. Both parsing paths
are proven below to produce exactly this shape. -/
def padSpec (xs : List α) (n : Nat) (ph : α) : List α :=
  xs.take n ++ List.replicate (n - xs.length) ph

/- ## Helper lemmas -/

theorem padAnswers_loop (xs : List α) (n : Nat) (ph : α) :
    padAnswers xs n ph =
      if xs.length < n then padAnswers (xs ++ [ph]) n ph else xs := by
  unfold padAnswers
  split
  · rename_i h
    have hrep : n - xs.length = (n - (xs.length + 1)) + 1 := by omega
    simp [hrep, List.replicate_succ]
  · rename_i h
    have : n - xs.length = 0 := by omega
    simp [this]

theorem padAnswers_length (xs : List α) (n : Nat) (ph : α) :
    (padAnswers xs n ph).length = max xs.length n := by
  simp [padAnswers]
  omega

theorem padAnswers_take (xs : List α) (n : Nat) (ph : α) :
    (padAnswers xs n ph).take n = padSpec xs n ph := by
  simp [padAnswers, padSpec, List.take_append_eq_append_take, List.take_replicate]

theorem padSpec_length (xs : List α) (n : Nat) (ph : α) :
    (padSpec xs n ph).length = n := by
  simp [padSpec]
  omega

theorem mem_padSpec {v : α} {xs : List α} {n : Nat} {ph : α}
    (h : v ∈ padSpec xs n ph) : v ∈ xs ∨ v = ph := by
  rcases List.mem_append.1 h with h1 | h2
  · exact Or.inl (List.take_subset n xs h1)
  · exact Or.inr (List.eq_of_mem_replicate h2)

theorem fallback_parse_length (text : String) (questions : List String) :
    (fallback_parse text questions).length = questions.length := by
  simp [fallback_parse, padAnswers_take, padSpec_length]

theorem fallback_path_shape (t : String) (qs : List String) :
    ((fallback_parse t qs).map JVal.str).length = qs.length ∧
    ∀ v ∈ (fallback_parse t qs).map JVal.str, v.isStr = true := by
  constructor
  · simp [fallback_parse_length]
  · intro v hv
    rcases List.mem_map.1 hv with ⟨s, _, rfl⟩
    rfl

/-- C1 (amended): for every question list of length N and every model
outcome, `generate_answers` returns exactly N answers, in question order;
every answer is a JSON string except that an element of a well-formed JSON
answers array is passed through unchanged even when it is not a string. -/
theorem generate_answers_exact_count (complete : Except String String)
    (fenced : String → Option String) (loads : String → Option JTop)
    (questions context_chunks : List String) :
    (generate_answers complete fenced loads questions context_chunks).length
        = questions.length ∧
    ∀ v ∈ generate_answers complete fenced loads questions context_chunks,
      v.isStr = true ∨
        ∃ js ans, loads js = some (JTop.dict (some (JField.list ans))) ∧ v ∈ ans := by
  cases complete with
  | error e =>
    constructor
    · simp [generate_answers]
    · intro v hv
      simp only [generate_answers] at hv
      rcases List.mem_map.1 hv with ⟨q, _, rfl⟩
      exact Or.inl rfl
  | ok resp =>
    simp only [generate_answers]
    rcases hf : find_json_str fenced (pyStrip resp) with _ | js
    · simp only [parse_response, hf]
      exact ⟨(fallback_path_shape _ _).1, fun v hv => Or.inl ((fallback_path_shape _ _).2 v hv)⟩
    · by_cases hjs : js = ""
      · simp only [parse_response, hf, hjs, if_pos rfl]
        exact ⟨(fallback_path_shape _ _).1, fun v hv => Or.inl ((fallback_path_shape _ _).2 v hv)⟩
      · rcases hl : loads js with _ | top
        · simp only [parse_response, hf, if_neg hjs, hl]
          exact ⟨(fallback_path_shape _ _).1, fun v hv => Or.inl ((fallback_path_shape _ _).2 v hv)⟩
        · cases top with
          | nonDict =>
            simp only [parse_response, hf, if_neg hjs, hl]
            exact ⟨(fallback_path_shape _ _).1, fun v hv => Or.inl ((fallback_path_shape _ _).2 v hv)⟩
          | dict answersField =>
            cases answersField with
            | none =>
              simp only [parse_response, hf, if_neg hjs, hl]
              exact ⟨(fallback_path_shape _ _).1,
                fun v hv => Or.inl ((fallback_path_shape _ _).2 v hv)⟩
            | some jf =>
              cases jf with
              | nonList =>
                simp only [parse_response, hf, if_neg hjs, hl]
                exact ⟨(fallback_path_shape _ _).1,
                  fun v hv => Or.inl ((fallback_path_shape _ _).2 v hv)⟩
              | list answers =>
                simp only [parse_response, hf, if_neg hjs, hl, padAnswers_take]
                refine ⟨padSpec_length _ _ _, fun v hv => ?_⟩
                rcases mem_padSpec hv with h1 | h2
                · exact Or.inr ⟨js, answers, hl, h1⟩
                · exact Or.inl (h2 ▸ rfl)

/-- C1 (counterexample): on the well-formed JSON model output with answers
array [1] for one question, `generate_answers` returns the non-string JSON
value unchanged, so the result is not a list of answer strings. -/
theorem generate_answers_nonstring_passthrough :
    (generate_answers (.ok "\x7b\"answers\": [1]\x7d") (fun _ => none)
        (fun s => if s = "\x7b\"answers\": [1]\x7d" then
            some (JTop.dict (some (JField.list [JVal.other]))) else none)
        ["q"] []).all JVal.isStr = false := by decide

/-- C1 (witness): the amended theorem applied at a concrete unstructured
model output and two questions. -/
theorem generate_answers_exact_count_witness :
    (generate_answers (.ok "hi") (fun _ => none) (fun _ => none) ["a", "b"] []).length = 2 ∧
    ((JVal.str "hi").isStr = true ∨
      ∃ js ans, (fun _ : String => (none : Option JTop)) js
          = some (JTop.dict (some (JField.list ans))) ∧ JVal.str "hi" ∈ ans) := by
  refine ⟨(generate_answers_exact_count (.ok "hi") (fun _ => none) (fun _ => none)
      ["a", "b"] []).1, ?_⟩
  exact (generate_answers_exact_count (.ok "hi") (fun _ => none) (fun _ => none)
      ["a", "b"] []).2 (JVal.str "hi") (by decide)

/-- C3 (counterexample): the fallback pads with its own placeholder, which
differs from the placeholder the JSON path pads with, as shown by one
one-answer output processed by each path for two questions. -/
theorem fallback_placeholder_differs :
    fallback_parse "x" ["q1", "q2"] = ["x", fallback_pad_placeholder] ∧
    parse_response (fun _ => none)
        (fun s => if s = "\x7b\"answers\": [\"A1\"]\x7d" then
            some (JTop.dict (some (JField.list [JVal.str "A1"]))) else none)
        "\x7b\"answers\": [\"A1\"]\x7d" ["q1", "q2"]
      = [JVal.str "A1", JVal.str json_pad_placeholder] ∧
    fallback_pad_placeholder ≠ json_pad_placeholder := by decide

/-- C3 (amended): both parsing paths pad missing answers to the question
count and truncate excess by the same take-and-fill rule, but each pads with
its own fixed placeholder, and the two placeholder strings differ. -/
theorem pad_truncate_policy :
    (∀ text qs, fallback_parse text qs =
        padSpec (fallbackScan (pySplitLines text) "" []) qs.length
          fallback_pad_placeholder) ∧
    (∀ (fenced : String → Option String) (loads : String → Option JTop)
        (text : String) (qs : List String) (js : String) (ans : List JVal),
        find_json_str fenced text = some js → js ≠ "" →
        loads js = some (JTop.dict (some (JField.list ans))) →
        parse_response fenced loads text qs =
          padSpec ans qs.length (JVal.str json_pad_placeholder)) ∧
    fallback_pad_placeholder ≠ json_pad_placeholder := by
  refine ⟨fun text qs => ?_, fun fenced loads text qs js ans hf hjs hl => ?_, by decide⟩
  · simp [fallback_parse, padAnswers_take]
  · simp only [parse_response, hf, if_neg hjs, hl, padAnswers_take]

/-- C3 (witness): the amended theorem applied to a concrete prose output on
the fallback path and a concrete empty answers array on the JSON path. -/
theorem pad_truncate_policy_witness :
    fallback_parse "x" ["q"] =
      padSpec (fallbackScan (pySplitLines "x") "" []) 1 fallback_pad_placeholder ∧
    parse_response (fun _ => none)
        (fun s => if s = "\x7b\"answers\": []\x7d" then
            some (JTop.dict (some (JField.list []))) else none)
        "\x7b\"answers\": []\x7d" ["q"]
      = padSpec ([] : List JVal) 1 (JVal.str json_pad_placeholder) := by
  refine ⟨pad_truncate_policy.1 "x" ["q"], ?_⟩
  exact pad_truncate_policy.2.1 (fun _ => none)
    (fun s => if s = "\x7b\"answers\": []\x7d" then
        some (JTop.dict (some (JField.list []))) else none)
    "\x7b\"answers\": []\x7d" ["q"] "\x7b\"answers\": []\x7d" []
    (by decide) (by decide) (by decide)

theorem mem_insertByScore {α : Type} {sc : α → Int} {x y : α} {l : List α} :
    y ∈ insertByScore sc x l ↔ y = x ∨ y ∈ l := by
  induction l with
  | nil => simp [insertByScore]
  | cons z zs ih =>
    simp only [insertByScore]
    split
    · simp
    · simp [ih]
      tauto

theorem mem_sortByScore {α : Type} {sc : α → Int} {x : α} {l : List α} :
    x ∈ sortByScore sc l ↔ x ∈ l := by
  induction l with
  | nil => simp [sortByScore]
  | cons z zs ih => simp [sortByScore, mem_insertByScore, ih]

theorem mem_pineconeQuery {Emb : Type} {sim : Emb → Emb → Int} {s : IndexState Emb}
    {qEmb : Emb} {top_k : Nat} {ns document_id : String} {e : IndexEntry Emb}
    (h : e ∈ pineconeQuery sim s qEmb top_k ns document_id) :
    e ∈ s ∧ e.ns = ns ∧ e.vec.metadata.document_id = document_id := by
  have h1 := List.take_subset _ _ h
  have h2 := mem_sortByScore.1 h1
  have h3 := List.mem_filter.1 h2
  refine ⟨h3.1, ?_, ?_⟩
  · have := h3.2
    simp only [Bool.and_eq_true, decide_eq_true_eq] at this
    exact this.1
  · have := h3.2
    simp only [Bool.and_eq_true, decide_eq_true_eq] at this
    exact this.2

/-- C2: every segment text returned by a search scoped to document D1 comes
from an index record whose stored metadata document_id equals D1; for any
other document identifier D2 the witnessing record therefore has metadata
document_id different from D2, so a search scoped to D1 never returns a
segment of D2. -/
theorem search_document_isolation {Emb : Type}
    (encodeQuery : String → Except String Emb) (sim : Emb → Emb → Int)
    (queryFail : Option String) (s : IndexState Emb) (q d1 d2 : String)
    (limit : Nat) (hne : d1 ≠ d2) :
    ∀ t ∈ search encodeQuery sim queryFail s q d1 limit,
      ∃ e ∈ s, e.vec.metadata.document_id = d1 ∧
        e.vec.metadata.document_id ≠ d2 ∧ e.vec.metadata.text = t := by
  intro t ht
  unfold search at ht
  rcases he : encodeQuery q with msg | qEmb <;> rw [he] at ht
  · simp at ht
  · cases queryFail with
    | some m => simp at ht
    | none =>
      simp only [List.mem_map] at ht
      rcases ht with ⟨e, hmem, rfl⟩
      have h := mem_pineconeQuery hmem
      exact ⟨e, h.1, h.2.2, fun hc => hne (h.2.2 ▸ hc ▸ rfl), rfl⟩

/-- C2 (witness): the isolation theorem applied to a concrete two-document
index, showing the returned text of the D1-scoped search is carried by a
D1 record. -/
theorem search_document_isolation_witness :
    ∃ e ∈ ([⟨vectorNamespace, mkChunkVector "D1" 0 "alpha" 7⟩,
            ⟨vectorNamespace, mkChunkVector "D2" 0 "beta" 9⟩] : IndexState Nat),
      e.vec.metadata.document_id = "D1" ∧
        e.vec.metadata.document_id ≠ "D2" ∧ e.vec.metadata.text = "alpha" :=
  search_document_isolation (fun _ => .ok 1) (fun _ _ => 0) none
    [⟨vectorNamespace, mkChunkVector "D1" 0 "alpha" 7⟩,
     ⟨vectorNamespace, mkChunkVector "D2" 0 "beta" 9⟩] "q" "D1" "D2" 15
    (by decide) "alpha" (by decide)

/-- C6: the vector-index query operation never raises: a failing query
embedding or a failing index query yields the empty list, and on success at
most `limit` segment texts are returned. -/
theorem search_degrades_and_caps {Emb : Type}
    (encodeQuery : String → Except String Emb) (sim : Emb → Emb → Int)
    (queryFail : Option String) (s : IndexState Emb) (q d : String) (limit : Nat) :
    (∀ msg, encodeQuery q = .error msg →
      search encodeQuery sim queryFail s q d limit = []) ∧
    (∀ msg, queryFail = some msg →
      search encodeQuery sim queryFail s q d limit = []) ∧
    (search encodeQuery sim queryFail s q d limit).length ≤ limit := by
  refine ⟨fun msg hmsg => ?_, fun msg hmsg => ?_, ?_⟩
  · simp [search, hmsg]
  · rcases he : encodeQuery q with m | qEmb <;> simp [search, he, hmsg]
  · rcases he : encodeQuery q with m | qEmb
    · simp [search, he]
    · cases queryFail with
      | some m => simp [search, he]
      | none =>
        simp only [search, he, List.length_map]
        exact List.length_take_le _ _

/-- C6 (witness): the degradation theorem applied to a concrete index with a
failing embedding call, a failing query transport, and a successful search. -/
theorem search_degrades_and_caps_witness :
    ((∀ msg, (fun _ : String => (.error "net" : Except String Nat)) "q" = .error msg →
        search (fun _ => .error "net") (fun _ _ => (0 : Int)) none
          ([⟨vectorNamespace, mkChunkVector "D1" 0 "alpha" 7⟩] : IndexState Nat)
          "q" "D1" 15 = []) ∧
      (∀ msg, (none : Option String) = some msg →
        search (fun _ => .error "net") (fun _ _ => (0 : Int)) none
          ([⟨vectorNamespace, mkChunkVector "D1" 0 "alpha" 7⟩] : IndexState Nat)
          "q" "D1" 15 = []) ∧
      (search (fun _ => .error "net") (fun _ _ => (0 : Int)) none
          ([⟨vectorNamespace, mkChunkVector "D1" 0 "alpha" 7⟩] : IndexState Nat)
          "q" "D1" 15).length ≤ 15) ∧
    search (fun _ => .error "net") (fun _ _ => (0 : Int)) none
        ([⟨vectorNamespace, mkChunkVector "D1" 0 "alpha" 7⟩] : IndexState Nat)
        "q" "D1" 15 = [] :=
  ⟨search_degrades_and_caps (fun _ => .error "net") (fun _ _ => 0) none
      [⟨vectorNamespace, mkChunkVector "D1" 0 "alpha" 7⟩] "q" "D1" 15,
    (search_degrades_and_caps (fun _ => .error "net") (fun _ _ => 0) none
      [⟨vectorNamespace, mkChunkVector "D1" 0 "alpha" 7⟩] "q" "D1" 15).1 "net" rfl⟩

/-- C4 (counterexample): with a failing embedding call, and separately with a
failing upsert call, `add_to_pinecone_fallback` returns normally with no
error propagated to the caller, so the claimed IndexingFailure propagation
does not happen. -/
theorem add_to_pinecone_error_swallowed_cex :
    add_to_pinecone_fallback (fun _ => (.error "boom" : Except String (List Nat)))
        (fun _ => none) ["a"] "D1" [] = ([], none) ∧
    add_to_pinecone_fallback (fun _ => (.ok [5] : Except String (List Nat)))
        (fun _ => some "net") ["a"] "D1" [] = ([], none) := by decide

/-- C4 (amended): on any embedding or upsert error the indexing operation
catches the exception and returns normally, never propagating an error to
the caller; an embedding failure leaves the index unchanged, and an upsert
failure of the first batch also leaves the index unchanged (only batches
upserted before a failure remain, with no rollback). -/
theorem add_to_pinecone_swallows_errors {Emb : Type}
    (encode : List String → Except String (List Emb))
    (upsertFail : Nat → Option String) (chunks : List String) (d : String)
    (s : IndexState Emb) :
    (add_to_pinecone_fallback encode upsertFail chunks d s).2 = none ∧
    (∀ msg, encode chunks = .error msg →
      add_to_pinecone_fallback encode upsertFail chunks d s = (s, none)) ∧
    (∀ msg embs, encode chunks = .ok embs → upsertFail 0 = some msg →
      chunks ≠ [] → embs ≠ [] →
      add_to_pinecone_fallback encode upsertFail chunks d s = (s, none)) := by
  refine ⟨?_, fun msg h => ?_, fun msg embs h1 h2 h3 h4 => ?_⟩
  · rcases he : encode chunks with m | embs <;> simp [add_to_pinecone_fallback, he]
  · simp [add_to_pinecone_fallback, h]
  · cases chunks with
    | nil => exact absurd rfl h3
    | cons c cs =>
      cases embs with
      | nil => exact absurd rfl h4
      | cons e es =>
        simp [add_to_pinecone_fallback, h1, addBatchesAux, h2]

/-- C4 (witness): the amended theorem applied to a one-segment upload with a
failing embedding call. -/
theorem add_to_pinecone_swallows_errors_witness :
    (add_to_pinecone_fallback (fun _ => (.error "boom" : Except String (List Nat)))
        (fun _ => none) ["a"] "D1" []).2 = none ∧
    add_to_pinecone_fallback (fun _ => (.error "boom" : Except String (List Nat)))
        (fun _ => none) ["a"] "D1" [] = ([], none) :=
  ⟨(add_to_pinecone_swallows_errors (fun _ => .error "boom") (fun _ => none)
      ["a"] "D1" []).1,
    (add_to_pinecone_swallows_errors (fun _ => .error "boom") (fun _ => none)
      ["a"] "D1" []).2.1 "boom" rfl⟩

theorem nodup_dedupUpdate (xs : List String) :
    ∀ acc : List String, acc.Nodup → (dedupUpdate acc xs).Nodup := by
  induction xs with
  | nil => intro acc h; exact h
  | cons x rest ih =>
    intro acc h
    simp only [dedupUpdate, List.foldl_cons]
    apply ih
    by_cases hx : x ∈ acc
    · simpa [hx] using h
    · simp only [hx, if_neg, ite_false]
      simp [List.nodup_append, h, hx]

theorem mem_dedupUpdate (xs : List String) :
    ∀ (acc : List String) (c : String), c ∈ dedupUpdate acc xs → c ∈ acc ∨ c ∈ xs := by
  induction xs with
  | nil => intro acc c h; exact Or.inl h
  | cons x rest ih =>
    intro acc c h
    simp only [dedupUpdate, List.foldl_cons] at h
    rcases ih _ c h with h1 | h2
    · by_cases hx : x ∈ acc
      · rw [if_pos hx] at h1
        exact Or.inl h1
      · rw [if_neg hx] at h1
        rcases List.mem_append.1 h1 with h3 | h4
        · exact Or.inl h3
        · exact Or.inr (by simp [List.mem_singleton.1 h4])
    · exact Or.inr (List.mem_cons_of_mem _ h2)

theorem mem_gatherRelevantChunks (retrieve : String → List String)
    (questions : List String) (c : String)
    (h : c ∈ gatherRelevantChunks retrieve questions) :
    ∃ q ∈ questions, c ∈ (retrieve q).take 5 := by
  suffices key : ∀ (qs : List String) (acc : List String),
      c ∈ qs.foldl (fun a q => dedupUpdate a ((retrieve q).take 5)) acc →
      c ∈ acc ∨ ∃ q ∈ qs, c ∈ (retrieve q).take 5 by
    rcases key questions [] h with h1 | h2
    · simp at h1
    · exact h2
  intro qs
  induction qs with
  | nil => intro acc h0; exact Or.inl h0
  | cons q rest ih =>
    intro acc h0
    simp only [List.foldl_cons] at h0
    rcases ih _ h0 with h1 | h2
    · rcases mem_dedupUpdate _ _ _ h1 with h3 | h4
      · exact Or.inl h3
      · exact Or.inr ⟨q, List.mem_cons_self _ _, h4⟩
    · rcases h2 with ⟨q2, hq2, hc2⟩
      exact Or.inr ⟨q2, List.mem_cons_of_mem _ hq2, hc2⟩

theorem nodup_gatherRelevantChunks (retrieve : String → List String)
    (questions : List String) : (gatherRelevantChunks retrieve questions).Nodup := by
  suffices key : ∀ (qs : List String) (acc : List String), acc.Nodup →
      (qs.foldl (fun a q => dedupUpdate a ((retrieve q).take 5)) acc).Nodup by
    exact key questions [] List.nodup_nil
  intro qs
  induction qs with
  | nil => intro acc h; exact h
  | cons q rest ih =>
    intro acc h
    simp only [List.foldl_cons]
    exact ih _ (nodup_dedupUpdate _ _ h)

/-- C9: the stateful ask handler takes at most five retrieved segments per
question, unions them across questions with text-equality deduplication,
caps the union at twenty segments, and invokes the answer synthesizer
exactly once with all questions and that capped set. -/
theorem process_documents_aggregation {Emb : Type}
    (encodeQuery : String → Except String Emb) (sim : Emb → Emb → Int)
    (queryFail : String → Option String) (s : IndexState Emb)
    (synthesize : List String → List String → List String)
    (document_id : String) (questions : List String) :
    ∃ fc,
      process_documents encodeQuery sim queryFail s synthesize document_id questions
          = (synthesize questions fc, [(questions, fc)]) ∧
      fc.Nodup ∧ fc.length ≤ 20 ∧
      ∀ c ∈ fc, ∃ q ∈ questions,
        c ∈ (search encodeQuery sim (queryFail q) s q document_id 15).take 5 := by
  refine ⟨(gatherRelevantChunks
      (fun q => search encodeQuery sim (queryFail q) s q document_id 15)
      questions).take 20, rfl, ?_, List.length_take_le _ _, ?_⟩
  · exact (nodup_gatherRelevantChunks _ _).sublist (List.take_sublist _ _)
  · intro c hc
    exact mem_gatherRelevantChunks _ _ _ (List.take_subset _ _ hc)

/-- C9 (witness): the aggregation theorem applied to a concrete one-record
index and two questions. -/
theorem process_documents_aggregation_witness :
    ∃ fc,
      process_documents (fun _ => (.ok 1 : Except String Nat)) (fun _ _ => 0)
          (fun _ => none)
          [⟨vectorNamespace, mkChunkVector "D1" 0 "alpha" 7⟩]
          (fun _ chunks => chunks) "D1" ["q1", "q2"]
          = ((fun _ chunks => chunks) ["q1", "q2"] fc, [(["q1", "q2"], fc)]) ∧
      fc.Nodup ∧ fc.length ≤ 20 ∧
      ∀ c ∈ fc, ∃ q ∈ ["q1", "q2"],
        c ∈ (search (fun _ => (.ok 1 : Except String Nat)) (fun _ _ => 0) none
          [⟨vectorNamespace, mkChunkVector "D1" 0 "alpha" 7⟩] q "D1" 15).take 5 :=
  process_documents_aggregation (fun _ => .ok 1) (fun _ _ => 0) (fun _ => none)
    [⟨vectorNamespace, mkChunkVector "D1" 0 "alpha" 7⟩]
    (fun _ chunks => chunks) "D1" ["q1", "q2"]

theorem dictFind_insert_self (m : DocumentCache) (k : String) (v : CacheEntry) :
    dictFind (dictInsert m k v) k = some v := by
  simp [dictInsert, dictFind]

theorem dictFind_filter_other (m : DocumentCache) (k k' : String) (h : k' ≠ k) :
    dictFind (m.filter (fun p => !(decide (p.1 = k')))) k = dictFind m k := by
  induction m with
  | nil => rfl
  | cons p rest ih =>
    by_cases hp : p.1 = k'
    · have hk : p.1 ≠ k := fun hc => h (hp ▸ hc)
      simp [List.filter_cons, hp, dictFind, hk, ih, h]
    · by_cases hk : p.1 = k
      · simp [List.filter_cons, hp, dictFind, hk, h.symm]
      · simp [List.filter_cons, hp, dictFind, hk, ih]

theorem dictFind_insert_other (m : DocumentCache) (k k' : String) (v : CacheEntry)
    (h : k' ≠ k) : dictFind (dictInsert m k' v) k = dictFind m k := by
  simp only [dictInsert, dictFind, h, if_neg]
  exact dictFind_filter_other m k k' h

/-- C7: a get on url u after cache_document(u, d, c), with any number of
intervening writes whose keys hash differently, returns the entry with
document_id exactly d and chunks exactly c; and the cache key is a function
of the URL string alone, so equal URL strings always address the same
entry. -/
theorem cache_document_roundtrip (sha256hex : String → String) (m : DocumentCache)
    (url d now : String) (chunks : List String)
    (puts : List (String × String × List String × String))
    (h : ∀ p ∈ puts, sha256hex p.1 ≠ sha256hex url) :
    get_cached_document sha256hex
        (applyPuts sha256hex puts (cache_document sha256hex m url d chunks now)) url
      = some ⟨d, chunks, now⟩ ∧
    ∀ u1 u2 : String, u1 = u2 →
      get_url_hash sha256hex u1 = get_url_hash sha256hex u2 := by
  refine ⟨?_, fun u1 u2 he => he ▸ rfl⟩
  have key : ∀ (ps : List (String × String × List String × String))
      (m2 : DocumentCache) (v : CacheEntry),
      (∀ p ∈ ps, sha256hex p.1 ≠ sha256hex url) →
      dictFind m2 (sha256hex url) = some v →
      dictFind (applyPuts sha256hex ps m2) (sha256hex url) = some v := by
    intro ps
    induction ps with
    | nil => intro m2 v _ hv; exact hv
    | cons p rest ih =>
      intro m2 v hps hv
      simp only [applyPuts, List.foldl_cons]
      refine ih _ v (fun p2 hp2 => hps p2 (List.mem_cons_of_mem _ hp2)) ?_
      have hne : sha256hex p.1 ≠ sha256hex url := hps p (List.mem_cons_self _ _)
      calc dictFind (cache_document sha256hex m2 p.1 p.2.1 p.2.2.1 p.2.2.2)
              (sha256hex url)
          = dictFind m2 (sha256hex url) :=
            dictFind_insert_other m2 (sha256hex url) (sha256hex p.1) _ hne
        _ = some v := hv
  exact key puts _ _ h (dictFind_insert_self m (sha256hex url) ⟨d, chunks, now⟩)

/-- C7 (witness): the round-trip theorem applied with a concrete injective
hash, one cached URL and one intervening write for a different URL. -/
theorem cache_document_roundtrip_witness :
    get_cached_document (fun s => s ++ "#")
        (applyPuts (fun s => s ++ "#") [("u2", "d2", [], "t2")]
          (cache_document (fun s => s ++ "#") [] "u1" "d1" ["c1"] "t1")) "u1"
      = some ⟨"d1", ["c1"], "t1"⟩ ∧
    ∀ u1 u2 : String, u1 = u2 →
      get_url_hash (fun s => s ++ "#") u1 = get_url_hash (fun s => s ++ "#") u2 :=
  cache_document_roundtrip (fun s => s ++ "#") [] "u1" "d1" "t1" ["c1"]
    [("u2", "d2", [], "t2")] (by decide)

theorem finishExtract_fs (text : String) (fs : FsState) :
    (finishExtract text fs).2 = fs := by
  unfold finishExtract
  split <;> rfl

/-- C8 (counterexample): when the write of the downloaded bytes to the
temporary PDF file fails, the exception escapes the try/finally that unlinks
the file, so `download_and_extract` returns with the temporary file still on
disk. -/
theorem download_and_extract_leak_on_write_failure :
    download_and_extract (.ok ⟨"application/pdf", "BYTES"⟩) "/tmp/t.pdf"
        (some "disk full") (.ok ["page one"]) []
      = (.error (.httpException 400 "Failed to process content from URL: disk full"),
          ["/tmp/t.pdf"]) ∧
    "/tmp/t.pdf" ∈ (download_and_extract (.ok ⟨"application/pdf", "BYTES"⟩)
        "/tmp/t.pdf" (some "disk full") (.ok ["page one"]) []).2 := by decide

/-- C8 (amended): whenever the write of the fetched bytes succeeds, the
temporary file is removed before `download_and_extract` returns, on the
success path and on the PDF-parse failure path alike; only a failure while
writing the bytes leaves the file behind. -/
theorem download_and_extract_removes_tempfile (resp : Except String HttpResp)
    (tmpPath : String) (pdfPages : Except String (List String)) (fs : FsState)
    (h : tmpPath ∉ fs) :
    tmpPath ∉ (download_and_extract resp tmpPath none pdfPages fs).2 := by
  cases resp with
  | error msg => exact h
  | ok r =>
    unfold download_and_extract
    by_cases hpdf : containsSub (pyLower r.content_type).toList
        "application/pdf".toList = true
    · simp only [hpdf, if_true]
      have herase : (fs ++ [tmpPath]).erase tmpPath = fs := by
        rw [List.erase_append_right _ h, List.erase_cons_head, List.append_nil]
      cases pdfPages with
      | error m =>
        simpa [herase] using h
      | ok pages =>
        rw [finishExtract_fs, herase]
        exact h
    · simp only [hpdf]
      by_cases htxt : containsSub (pyLower r.content_type).toList
          "text/plain".toList = true
      · simp only [htxt, if_true, if_false, Bool.false_eq_true, finishExtract_fs]
        exact h
      · simp only [htxt, if_false, Bool.false_eq_true]
        exact h

/-- C8 (witness): the removal theorem applied to a concrete successful PDF
extraction with an initially empty filesystem. -/
theorem download_and_extract_removes_tempfile_witness :
    "/tmp/t.pdf" ∉ (download_and_extract (.ok ⟨"application/pdf", "BYTES"⟩)
        "/tmp/t.pdf" none (.ok ["page one"]) []).2 :=
  download_and_extract_removes_tempfile (.ok ⟨"application/pdf", "BYTES"⟩)
    "/tmp/t.pdf" (.ok ["page one"]) [] (by decide)

/-- C5: the stateful upload handler cannot complete: the URL branch unpacks
the single extracted-text string into a content and content-type pair, which
raises ValueError unless the text has exactly two characters, and both
branches then call the nonexistent method extract_text_from_content, which
raises AttributeError; the session store is never written and no upload
returns successfully. Shown here by evaluating the handler on a successful
plain-text download, on a two-character download, and on a file upload. -/
theorem upload_document_always_raises :
    (upload_document_via_url (.ok ⟨"text/plain", "hello world"⟩) "/tmp/t" none
        (.ok []) []).1
      = .error (.valueError "too many values to unpack (expected 2)") ∧
    (upload_document_via_url (.ok ⟨"text/plain", "hi"⟩) "/tmp/t" none
        (.ok []) []).1
      = .error (.attributeError
          "ContentProcessor object has no attribute extract_text_from_content") ∧
    upload_document_via_file "filebytes" "application/pdf"
      = .error (.attributeError
          "ContentProcessor object has no attribute extract_text_from_content") := by
  decide

theorem toNat_decDigit {d : Nat} (h : d < 10) : (decDigit d).toNat - 48 = d := by
  interval_cases d <;> decide

theorem decVal_natToDecAux : ∀ (fuel n : Nat), n < fuel →
    decVal (natToDecAux fuel n) = n := by
  intro fuel
  induction fuel with
  | zero => intro n h; omega
  | succ f ih =>
    intro n h
    by_cases h10 : n < 10
    · simp [natToDecAux, h10, decVal, toNat_decDigit h10]
    · have hd : n / 10 < f := by
        have h1 : n / 10 < n := Nat.div_lt_self (by omega) (by omega)
        omega
      simp only [natToDecAux, h10, if_false]
      unfold decVal
      rw [List.foldl_append]
      have := ih (n / 10) hd
      unfold decVal at this
      rw [this]
      simp only [List.foldl_cons, List.foldl_nil]
      rw [toNat_decDigit (Nat.mod_lt n (by omega))]
      omega

theorem natToDec_inj {n m : Nat} (h : natToDec n = natToDec m) : n = m := by
  have h1 := decVal_natToDecAux (n + 1) n (Nat.lt_succ_self n)
  have h2 := decVal_natToDecAux (m + 1) m (Nat.lt_succ_self m)
  unfold natToDec at h
  rw [h] at h1
  rw [h2] at h1
  omega

theorem chunkVectorId_inj {d : String} {n m : Nat}
    (h : chunkVectorId d n = chunkVectorId d m) : n = m := by
  unfold chunkVectorId natToDecStr at h
  have hd := congrArg String.data h
  rw [String.data_append, String.data_append] at hd
  exact natToDec_inj (List.append_cancel_left hd)

theorem mkBatchVectors_append {Emb : Type} (d : String) (p1 p2 : List (String × Emb)) :
    ∀ b, mkBatchVectors d b (p1 ++ p2)
      = mkBatchVectors d b p1 ++ mkBatchVectors d (b + p1.length) p2 := by
  induction p1 with
  | nil => intro b; simp [mkBatchVectors]
  | cons p rest ih =>
    intro b
    simp only [List.cons_append, mkBatchVectors, List.append_eq]
    rw [ih (b + 1)]
    have h2 : b + 1 + rest.length = b + (p :: rest).length := by
      simp only [List.length_cons]
      omega
    rw [h2]

theorem mem_mkBatchVectors_id {Emb : Type} {d : String} {v : PineVector Emb} :
    ∀ {pairs : List (String × Emb)} {b : Nat}, v ∈ mkBatchVectors d b pairs →
      ∃ n, b ≤ n ∧ n < b + pairs.length ∧ v.id = chunkVectorId d n := by
  intro pairs
  induction pairs with
  | nil => intro b h; simp [mkBatchVectors] at h
  | cons p rest ih =>
    intro b h
    simp only [mkBatchVectors, List.mem_cons] at h
    rcases h with h | h
    · exact ⟨b, le_refl b, by simp, by rw [h]; rfl⟩
    · rcases ih h with ⟨n, h1, h2, h3⟩
      exact ⟨n, by omega, by simp only [List.length_cons]; omega, h3⟩

theorem length_mkBatchVectors {Emb : Type} (d : String) :
    ∀ (pairs : List (String × Emb)) (b : Nat),
      (mkBatchVectors d b pairs).length = pairs.length := by
  intro pairs
  induction pairs with
  | nil => intro b; rfl
  | cons p rest ih => intro b; simp [mkBatchVectors, ih]

theorem upsertVectors_nil {Emb : Type} (s : IndexState Emb) (ns : String) :
    upsertVectors s ns [] = s := by
  simp [upsertVectors]

theorem upsertVectors_append_of_disjoint {Emb : Type} (s : IndexState Emb)
    (ns : String) (v1 v2 : List (PineVector Emb))
    (hdisj : ∀ a ∈ v1, ∀ c ∈ v2, a.id ≠ c.id) :
    upsertVectors (upsertVectors s ns v1) ns v2 = upsertVectors s ns (v1 ++ v2) := by
  unfold upsertVectors
  rw [List.filter_append, List.filter_filter, List.map_append, List.append_assoc]
  congr 1
  · apply List.filter_congr
    intro e _
    rcases hA : decide (e.ns = ns) with _ | _ <;>
      rcases hB : v1.any (fun v => decide (v.id = e.vec.id)) with _ | _ <;>
        rcases hC : v2.any (fun v => decide (v.id = e.vec.id)) with _ | _ <;>
          simp [hA, hB, hC, List.any_append]
  · congr 1
    rw [List.filter_eq_self]
    intro e he
    rcases List.mem_map.1 he with ⟨a, ha, rfl⟩
    have hfalse : v2.any (fun v => decide (v.id = a.id)) = false := by
      rw [List.any_eq_false]
      intro c hc
      simp only [decide_eq_true_eq]
      exact fun hid => hdisj a ha c hc hid.symm
    simp [hfalse]

theorem addBatchesAux_noFail {Emb : Type} (d : String) :
    ∀ (fuel : Nat) (pairs : List (String × Emb)) (b : Nat) (s : IndexState Emb),
      pairs.length < fuel →
      addBatchesAux (fun _ => none) d fuel pairs b s
        = (upsertVectors s vectorNamespace (mkBatchVectors d b pairs), none) := by
  intro fuel
  induction fuel with
  | zero => intro pairs b s h; omega
  | succ f ih =>
    intro pairs b s h
    cases pairs with
    | nil => simp [addBatchesAux, mkBatchVectors, upsertVectors_nil]
    | cons p rest =>
      have hlen1 : 1 ≤ (p :: rest).length := by simp
      have hfuel : ((p :: rest).drop pineconeBatchSize).length < f := by
        simp only [List.length_drop, List.length_cons] at *
        simp only [pineconeBatchSize]
        omega
      simp only [addBatchesAux]
      rw [ih _ _ _ hfuel]
      have htk : ((p :: rest).take pineconeBatchSize).length ≤ pineconeBatchSize := by
        simp [List.length_take]
      have hdisj : ∀ a ∈ mkBatchVectors d b ((p :: rest).take pineconeBatchSize),
          ∀ c ∈ mkBatchVectors d (b + pineconeBatchSize)
              ((p :: rest).drop pineconeBatchSize), a.id ≠ c.id := by
        intro a ha c hc
        rcases mem_mkBatchVectors_id ha with ⟨n1, hn1a, hn1b, hid1⟩
        rcases mem_mkBatchVectors_id hc with ⟨n2, hn2a, hn2b, hid2⟩
        rw [hid1, hid2]
        intro he
        have hnm := chunkVectorId_inj he
        omega
      rw [upsertVectors_append_of_disjoint _ _ _ _ hdisj]
      have hsplit : mkBatchVectors d b ((p :: rest).take pineconeBatchSize)
            ++ mkBatchVectors d (b + pineconeBatchSize)
                ((p :: rest).drop pineconeBatchSize)
          = mkBatchVectors d b (p :: rest) := by
        rcases le_or_lt pineconeBatchSize (p :: rest).length with hle | hlt
        · conv_rhs => rw [← List.take_append_drop pineconeBatchSize (p :: rest)]
          rw [mkBatchVectors_append, List.length_take, Nat.min_eq_left hle]
        · have hdrop : (p :: rest).drop pineconeBatchSize = [] :=
            List.drop_eq_nil_of_le (le_of_lt hlt)
          have htake : (p :: rest).take pineconeBatchSize = p :: rest :=
            List.take_of_length_le (le_of_lt hlt)
          rw [hdrop, htake]
          simp [mkBatchVectors]
      rw [hsplit]

theorem upsertVectors_idem {Emb : Type} (s : IndexState Emb) (ns : String)
    (vs : List (PineVector Emb)) :
    upsertVectors (upsertVectors s ns vs) ns vs = upsertVectors s ns vs := by
  unfold upsertVectors
  rw [List.filter_append, List.filter_filter]
  have h1 : (vs.map (fun v => (⟨ns, v⟩ : IndexEntry Emb))).filter
      (fun e => !(decide (e.ns = ns) && vs.any (fun v => decide (v.id = e.vec.id))))
      = [] := by
    rw [List.filter_eq_nil_iff]
    intro e he
    rcases List.mem_map.1 he with ⟨a, ha, rfl⟩
    have hany : vs.any (fun v => decide (v.id = a.id)) = true :=
      List.any_eq_true.2 ⟨a, ha, by simp⟩
    simp [hany]
  rw [h1]
  have h2 : s.filter (fun a =>
        (!(decide (a.ns = ns) && vs.any fun v => decide (v.id = a.vec.id))) &&
        (!(decide (a.ns = ns) && vs.any fun v => decide (v.id = a.vec.id))))
      = s.filter (fun e =>
        !(decide (e.ns = ns) && vs.any fun v => decide (v.id = e.vec.id))) := by
    apply List.filter_congr
    intro e _
    rw [Bool.and_self]
  rw [h2, List.append_nil]

theorem add_to_pinecone_noFail {Emb : Type}
    (encode : List String → Except String (List Emb)) (chunks : List String)
    (d : String) (s : IndexState Emb) (embs : List Emb)
    (h : encode chunks = .ok embs) :
    add_to_pinecone_fallback encode (fun _ => none) chunks d s
      = (upsertVectors s vectorNamespace
          (mkBatchVectors d 0 (chunks.zip embs)), none) := by
  simp only [add_to_pinecone_fallback, h]
  rw [addBatchesAux_noFail d _ _ 0 s (Nat.lt_succ_self _)]

/-- C10: vector identifiers are the deterministic function chunk_ of the
document identifier and the global ordinal of the segment, one identifier
per segment; indexing the same document identifier and segment list twice
(with the same embeddings and no transport failures) therefore upserts the
same identifiers and leaves the index exactly as after one indexing pass,
with no duplicated entries. -/
theorem chunk_ids_deterministic_idempotent {Emb : Type}
    (encode : List String → Except String (List Emb)) (chunks : List String)
    (d : String) (s : IndexState Emb) (embs : List Emb)
    (henc : encode chunks = .ok embs) :
    ((mkBatchVectors d 0 (chunks.zip embs)).length = (chunks.zip embs).length ∧
      ∀ v ∈ mkBatchVectors d 0 (chunks.zip embs),
        ∃ n, n < (chunks.zip embs).length ∧ v.id = chunkVectorId d n) ∧
    add_to_pinecone_fallback encode (fun _ => none) chunks d
        (add_to_pinecone_fallback encode (fun _ => none) chunks d s).1
      = add_to_pinecone_fallback encode (fun _ => none) chunks d s := by
  refine ⟨⟨length_mkBatchVectors d _ 0, fun v hv => ?_⟩, ?_⟩
  · rcases mem_mkBatchVectors_id hv with ⟨n, h0, h1, h2⟩
    exact ⟨n, by omega, h2⟩
  · rw [add_to_pinecone_noFail encode chunks d s embs henc]
    dsimp only
    rw [add_to_pinecone_noFail encode chunks d _ embs henc, upsertVectors_idem]

/-- C10 (witness): the theorem applied to a concrete two-segment document
indexed into an empty index. -/
theorem chunk_ids_deterministic_idempotent_witness :
    (((mkBatchVectors "D1" 0 (["a", "b"].zip [5, 6])).length
        = (["a", "b"].zip [(5 : Nat), 6]).length ∧
      ∀ v ∈ mkBatchVectors "D1" 0 (["a", "b"].zip [(5 : Nat), 6]),
        ∃ n, n < (["a", "b"].zip [(5 : Nat), 6]).length
          ∧ v.id = chunkVectorId "D1" n) ∧
    add_to_pinecone_fallback (fun _ => (.ok [5, 6] : Except String (List Nat)))
        (fun _ => none) ["a", "b"] "D1"
        (add_to_pinecone_fallback (fun _ => (.ok [5, 6] : Except String (List Nat)))
          (fun _ => none) ["a", "b"] "D1" []).1
      = add_to_pinecone_fallback (fun _ => (.ok [5, 6] : Except String (List Nat)))
          (fun _ => none) ["a", "b"] "D1" []) :=
  chunk_ids_deterministic_idempotent (fun _ => .ok [5, 6]) ["a", "b"] "D1" [] [5, 6] rfl
